import Mathlib

/-!
Verification of the Bughouse rules-overlay core (Rust crate `bughouse`).

The development shallowly embeds the crate's own code: `Holdings`
(src/holdings.rs), `Promotions` (src/promotions.rs), `BughouseMove`
(src/bughouse_move.rs), `BughouseBoard` (src/bughouse_board.rs) and
`BughouseGame` (src/bughouse_game.rs).  The external `chess` crate is not
part of the repository; per the design notes it is an injected capability
(piece-at-square, side-to-move, checkers, king location, squares-between,
legality test, move application, position construction).  It is modelled
here as an abstract `Engine` structure over an arbitrary position type,
and the theorems quantify over any such engine.  Machine integers:
holdings cells are Rust `u8`; increments are modelled as `(n + 1) % 256`
(release-mode wrapping semantics).
-/

/-- Color, as in the chess crate: White has index 0, Black index 1. -/
inductive Color where
  | white
  | black
deriving DecidableEq, Repr

/-- Models the chess crate's `!color` (the `Not` impl on `Color`). -/
def Color.other : Color → Color
  | .white => .black
  | .black => .white

instance : Fintype Color :=
  ⟨{Color.white, Color.black}, fun c => by cases c <;> simp⟩

/-- Piece, as in the chess crate: indices Pawn 0 .. King 5. -/
inductive Piece where
  | pawn
  | knight
  | bishop
  | rook
  | queen
  | king
deriving DecidableEq, Repr

instance : Fintype Piece :=
  ⟨{Piece.pawn, Piece.knight, Piece.bishop, Piece.rook, Piece.queen, Piece.king},
   fun p => by cases p <;> simp⟩

/-- A chess-crate square: index `rank * 8 + file`, 0 = a1, 63 = h8. -/
abbrev Square := Fin 64

/-- A chess-crate `BitBoard`, modelled as the set of squares whose bits are set. -/
abbrev BitBoard := Finset Square

/-- Models `BitBoard::to_square` (index of the least set bit).  The chess
crate's behaviour on the empty bitboard is out of range; the sources only
call it on nonempty bitboards, and we return square 0 in that dead case. -/
def BitBoard.toSquare (bb : BitBoard) : Square :=
  if h : bb.Nonempty then bb.min' h else ⟨0, by norm_num⟩

/-- Models `Square::make_square(rank, file)` (`from_index` masks to 3 bits). -/
def Square.make (rankIdx fileIdx : Nat) : Square :=
  ⟨(rankIdx % 8) * 8 + fileIdx % 8, by
    have h1 : rankIdx % 8 < 8 := Nat.mod_lt _ (by norm_num)
    have h2 : fileIdx % 8 < 8 := Nat.mod_lt _ (by norm_num)
    omega⟩

/-- The chess crate's `BoardStatus`. -/
inductive BoardStatus where
  | ongoing
  | stalemate
  | checkmate
deriving DecidableEq, Repr

/-- The chess crate's `ChessMove`: source, destination, optional promotion. -/
structure ChessMove where
  source : Square
  dest : Square
  promotion : Option Piece
deriving DecidableEq, Repr

/-- src/bughouse_move.rs: `BughouseMove` — a standard move (`source = some`)
or a drop (`source = none`); `piece` piggybacks promotion for drops also. -/
structure BughouseMove where
  source : Option Square
  dest : Square
  piece : Option Piece
deriving DecidableEq, Repr

/-- `BughouseMove::to_chess_move`. -/
def BughouseMove.to_chess_move (mv : BughouseMove) : Option ChessMove :=
  match mv.source with
  | none => none
  | some src => some ⟨src, mv.dest, mv.piece⟩

/-- src/error.rs: the crate's `Error` enum.  String payloads are carried as
`List Char`; `IllegalMove` stores `mv.to_string()` in Rust and we carry the
move value that string renders. -/
inductive Error where
  | gameParseError (s : List Char)
  | boardParseError (s : List Char)
  | illegalMove (mv : BughouseMove)
  | moveParseError (s : List Char)
  | unheldDrop (c : Color) (p : Piece)
  | holdingsParseError (s : List Char)
deriving DecidableEq, Repr

instance {ε α : Type} [DecidableEq ε] [DecidableEq α] : DecidableEq (Except ε α) := fun a b =>
  match a, b with
  | .ok x, .ok y => decidable_of_iff (x = y) (by simp)
  | .error x, .error y => decidable_of_iff (x = y) (by simp)
  | .ok _, .error _ => isFalse (by simp)
  | .error _, .ok _ => isFalse (by simp)

/-- src/holdings.rs: `Holdings` wraps `[[u8; 5]; 2]` indexed by color then
piece index.  We model the table as a function; the Rust array has only the
five droppable columns (indexing it with King would be an out-of-bounds
panic), and every claim about `Holdings` restricts to `t ≠ King`. -/
structure Holdings where
  holdings : Color → Piece → Nat

instance : DecidableEq Holdings := fun a b =>
  decidable_of_iff (a.holdings = b.holdings) (by cases a; cases b; simp)

/-- `Holdings::has_piece`. -/
def Holdings.has_piece (h : Holdings) (color : Color) (piece : Piece) : Bool :=
  decide (0 < h.holdings color piece)

/-- `Holdings::drop`, state-passing: the result pair is (returned `Result`,
holdings after the call).  Only the success path writes the cell. -/
def Holdings.drop (h : Holdings) (color : Color) (piece : Piece) :
    Except Error Unit × Holdings :=
  let curVal := h.holdings color piece
  if 0 < curVal then
    (.ok (), ⟨fun c' p' => if c' = color ∧ p' = piece then curVal - 1 else h.holdings c' p'⟩)
  else
    (.error (.unheldDrop color piece), h)

/-- `Holdings::add`: `+= 1` on a `u8` cell, wrapping at 256. -/
def Holdings.add (h : Holdings) (color : Color) (piece : Piece) : Holdings :=
  ⟨fun c' p' => if c' = color ∧ p' = piece then (h.holdings color piece + 1) % 256
                else h.holdings c' p'⟩

/-- src/promotions.rs: `Promotions` wraps `[BitBoard; 2]` indexed by color. -/
structure Promotions where
  promos : Color → BitBoard

instance : DecidableEq Promotions := fun a b =>
  decidable_of_iff (a.promos = b.promos) (by cases a; cases b; simp)

/-- `Promotions::is_promo`: `promos[color] & bb(sq) != EMPTY`. -/
def Promotions.is_promo (p : Promotions) (color : Color) (sq : Square) : Bool :=
  decide (p.promos color ∩ {sq} ≠ ∅)

/-- `Promotions::add_square`: `promos[color] |= bb(sq)`. -/
def Promotions.add_square (p : Promotions) (color : Color) (sq : Square) : Promotions :=
  ⟨fun c' => if c' = color then p.promos color ∪ {sq} else p.promos c'⟩

/-- `Promotions::clear_square`: `promos[color] &= !bb(sq)`. -/
def Promotions.clear_square (p : Promotions) (color : Color) (sq : Square) : Promotions :=
  ⟨fun c' => if c' = color then p.promos color \ {sq} else p.promos c'⟩

/-- `Promotions::record_move`.  Note the early `return` in the promotion
branch of the Rust source: the trailing `clear_square(!mover, dest)` runs
only when the move is not a promotion. -/
def Promotions.record_move (p : Promotions) (mover : Color) (mv : ChessMove) : Promotions :=
  if mv.promotion.isSome then
    p.add_square mover mv.dest
  else
    let p1 := if p.is_promo mover mv.source then
                (p.clear_square mover mv.source).add_square mover mv.dest
              else p
    p1.clear_square mover.other mv.dest

/-- The external chess crate, modelled as the capability interface the
design notes describe, over an arbitrary position type `Pos`:
piece-at-square, side-to-move, checkers bitboard, king location, status,
legality test, move application, drop placement (the `BoardBuilder` edit
followed by `Board::try_from`, `None` when the builder is rejected),
position parsing (`Board::from_str`, `none` on error), and the free
function `between` (squares strictly between two squares). -/
structure Engine (Pos : Type) where
  pieceOn : Pos → Square → Option Piece
  sideToMove : Pos → Color
  checkers : Pos → BitBoard
  kingSquare : Pos → Color → Square
  status : Pos → BoardStatus
  legal : Pos → ChessMove → Bool
  makeMoveNew : Pos → ChessMove → Pos
  applyDrop : Pos → Piece → Color → Square → Option Pos
  boardFromStr : List Char → Option Pos
  between : Square → Square → BitBoard

/-- src/bughouse_board.rs: `BughouseBoard` — external position plus
holdings plus promotion tracker. -/
structure BughouseBoard (Pos : Type) where
  board : Pos
  holdings : Holdings
  promos : Promotions

/-- `BAD_PAWN_RANKS`: `get_rank(Eighth) | get_rank(First)`. -/
def badPawnRanks : BitBoard :=
  Finset.univ.filter (fun sq : Square => sq.val / 8 = 7 ∨ sq.val / 8 = 0)

/-- `BughouseBoard::in_check`: `*checkers != EMPTY`. -/
def BughouseBoard.in_check {Pos : Type} (e : Engine Pos) (b : BughouseBoard Pos) : Bool :=
  decide (e.checkers b.board ≠ ∅)

/-- `BughouseBoard::king_square`: king of the side to move. -/
def BughouseBoard.king_square {Pos : Type} (e : Engine Pos) (b : BughouseBoard Pos) : Square :=
  e.kingSquare b.board (e.sideToMove b.board)

/-- `BughouseBoard::is_mated`.  The `piece_on(sq).unwrap()` of the source
is modelled as an equality with `some knight`; the claims about this
function carry the occupancy hypothesis making the two readings agree. -/
def BughouseBoard.is_mated {Pos : Type} (e : Engine Pos) (b : BughouseBoard Pos) : Bool :=
  let checkers := e.checkers b.board
  if e.status b.board ≠ BoardStatus.checkmate then false
  else
    let sq := BitBoard.toSquare checkers
    decide (1 < checkers.card)
      || decide (e.pieceOn b.board sq = some Piece.knight)
      || decide (e.between sq (BughouseBoard.king_square e b) = ∅)

/-- `BughouseBoard::blocks_check`. -/
def BughouseBoard.blocks_check {Pos : Type} (e : Engine Pos) (b : BughouseBoard Pos)
    (dropSq : BitBoard) : Bool :=
  let checkers := e.checkers b.board
  if checkers.card ≠ 1 then false
  else
    let checkerSq := BitBoard.toSquare checkers
    decide (¬ e.pieceOn b.board checkerSq = some Piece.knight)
      && decide (e.between checkerSq (BughouseBoard.king_square e b) ∩ dropSq ≠ ∅)

/-- `BughouseBoard::is_legal`: drops check holdings, empty destination,
pawn ranks and check interposition; standard moves delegate to the engine. -/
def BughouseBoard.is_legal {Pos : Type} (e : Engine Pos) (b : BughouseBoard Pos)
    (mv : BughouseMove) : Bool :=
  match mv.source with
  | none =>
    match mv.piece with
    | none => false
    | some piece =>
      let bbSq : BitBoard := {mv.dest}
      Holdings.has_piece b.holdings (e.sideToMove b.board) piece
        && decide (e.pieceOn b.board mv.dest = none)
        && (decide (piece ≠ Piece.pawn) || decide (bbSq ∩ badPawnRanks = ∅))
        && (!(BughouseBoard.in_check e b) || BughouseBoard.blocks_check e b bbSq)
  | some src => e.legal b.board ⟨src, mv.dest, mv.piece⟩

/-- `BughouseBoard::make_move`, state-passing: (returned `Result`, board
after the call).  The drop branch mirrors the Rust order: builder
placement first, then `holdings.drop(color, piece)?`, then the position
write.  The `source = none, piece = none` arm is unreachable because
`is_legal` already returned false there (Rust would have unwrapped). -/
def BughouseBoard.make_move {Pos : Type} (e : Engine Pos) (b : BughouseBoard Pos)
    (mv : BughouseMove) : Except Error Unit × BughouseBoard Pos :=
  if BughouseBoard.is_legal e b mv then
    match mv.source with
    | none =>
      match mv.piece with
      | some piece =>
        let color := e.sideToMove b.board
        match e.applyDrop b.board piece color mv.dest with
        | some newBoard =>
          match Holdings.drop b.holdings color piece with
          | (.ok _, h) => (.ok (), { b with board := newBoard, holdings := h })
          | (.error er, h) => (.error er, { b with holdings := h })
        | none => (.error (.illegalMove mv), b)
      | none => (.error (.illegalMove mv), b)
    | some src =>
      let chessMv : ChessMove := ⟨src, mv.dest, mv.piece⟩
      (.ok (), { b with promos := Promotions.record_move b.promos (e.sideToMove b.board) chessMv,
                        board := e.makeMoveNew b.board chessMv })
  else
    (.error (.illegalMove mv), b)

/-- src/bughouse_game.rs: `BoardID`. -/
inductive BoardID where
  | A
  | B
deriving DecidableEq, Repr

/-- The other board: Rust's `1 - name.to_index()`. -/
def BoardID.other : BoardID → BoardID
  | .A => .B
  | .B => .A

/-- src/bughouse_game.rs: `BughouseGame` — the two boards. -/
structure BughouseGame (Pos : Type) where
  a : BughouseBoard Pos
  b : BughouseBoard Pos

/-- `BughouseGame::get_board` (array indexing by `to_index`). -/
def BughouseGame.get_board {Pos : Type} (g : BughouseGame Pos) : BoardID → BughouseBoard Pos
  | .A => g.a
  | .B => g.b

/-- Writing one slot of the boards array. -/
def BughouseGame.set_board {Pos : Type} (g : BughouseGame Pos) :
    BoardID → BughouseBoard Pos → BughouseGame Pos
  | .A, x => { g with a := x }
  | .B, x => { g with b := x }

/-- `BughouseGame::make_move`: read capture candidate and its promotion
marker before the move, apply on the addressed board, then on capture add
to the partner board's holdings under `opp = !side_to_move`, substituting
a pawn when the marker was set. -/
def BughouseGame.make_move {Pos : Type} (e : Engine Pos) (g : BughouseGame Pos)
    (name : BoardID) (mv : BughouseMove) : Except Error Unit × BughouseGame Pos :=
  let bugBoard := g.get_board name
  let capturedPiece := e.pieceOn bugBoard.board mv.dest
  let opp := (e.sideToMove bugBoard.board).other
  let isPromo := Promotions.is_promo bugBoard.promos opp mv.dest
  match BughouseBoard.make_move e bugBoard mv with
  | (.error er, b') => (.error er, g.set_board name b')
  | (.ok _, b') =>
    let g1 := g.set_board name b'
    match capturedPiece with
    | some piece =>
      let otherBoard := g1.get_board name.other
      let otherBoard' := { otherBoard with
        holdings := Holdings.add otherBoard.holdings opp
          (if isPromo then Piece.pawn else piece) }
      (.ok (), g1.set_board name.other otherBoard')
    | none => (.ok (), g1)

/-- Result of a Rust call that may also abort: `ok` / `err` are the
ordinary `Result` values, `panicked` models an uncatchable fault
(`unwrap` on `None` / `Err`). -/
inductive Outcome (α : Type) where
  | ok (a : α)
  | err (e : Error)
  | panicked
deriving DecidableEq

/-- Number of occurrences of a character: `input_str.matches(c).count()`. -/
def countChar (c : Char) (s : List Char) : Nat :=
  (s.filter (fun x => x == c)).length

/-- Byte index of the first occurrence: Rust `str::find`. -/
def findChar (c : Char) (s : List Char) : Option Nat :=
  s.findIdx? (fun x => x == c)

/-- Rust `str::rsplit_once(c)`: split around the last occurrence. -/
def rsplitOnceChar (c : Char) (s : List Char) : Option (List Char × List Char) :=
  match s.reverse.findIdx? (fun x => x == c) with
  | none => none
  | some j => some (s.take (s.length - 1 - j), s.drop (s.length - j))

/-- Rust `str::trim`. -/
def trimChars (s : List Char) : List Char :=
  ((s.dropWhile Char.isWhitespace).reverse.dropWhile Char.isWhitespace).reverse

/-- The per-letter cases of `Holdings::from_str`: lowercase piles onto
Black, uppercase onto White, anything else is the error case. -/
def holdingsCharEntry (c : Char) : Option (Color × Piece) :=
  match c with
  | 'p' => some (.black, .pawn)
  | 'n' => some (.black, .knight)
  | 'b' => some (.black, .bishop)
  | 'r' => some (.black, .rook)
  | 'q' => some (.black, .queen)
  | 'P' => some (.white, .pawn)
  | 'N' => some (.white, .knight)
  | 'B' => some (.white, .bishop)
  | 'R' => some (.white, .rook)
  | 'Q' => some (.white, .queen)
  | _ => none

/-- Loop body of `Holdings::from_str`; the `+= 1` on a `u8` cell is the
same cell update `Holdings::add` performs. -/
def holdingsFromStrGo (value : List Char) : List Char → Holdings → Except Error Holdings
  | [], acc => .ok acc
  | ch :: rest, acc =>
    match holdingsCharEntry ch with
    | some (c, p) => holdingsFromStrGo value rest (Holdings.add acc c p)
    | none => .error (.holdingsParseError value)

/-- `Holdings::from_str`. -/
def Holdings.from_str (value : List Char) : Except Error Holdings :=
  holdingsFromStrGo value (trimChars value) ⟨fun _ _ => 0⟩

/-- Rust `str::split(c)`: `n` delimiters yield `n + 1` pieces, empties kept. -/
def splitOnChar (c : Char) : List Char → List (List Char)
  | [] => [[]]
  | x :: xs =>
    match splitOnChar c xs with
    | [] => [[]]
    | h :: t => if x == c then [] :: h :: t else (x :: h) :: t

/-- One row of `Promotions::from_fen`: walk the row characters carrying
the file index and the color of the last piece letter; `~` marks the
square left of the cursor for that color. -/
def promosFromFenRow : List Char → Nat → Color → Nat → (Color → BitBoard) → (Color → BitBoard)
  | [], _, _, _, acc => acc
  | ch :: rest, rank, lastColor, fileIdx, acc =>
    if '1' ≤ ch ∧ ch ≤ '8' then
      promosFromFenRow rest rank lastColor (fileIdx + (ch.toNat - '0'.toNat)) acc
    else if ch == 'p' || ch == 'n' || ch == 'b' || ch == 'r' || ch == 'q' || ch == 'k' then
      promosFromFenRow rest rank Color.black (fileIdx + 1) acc
    else if ch == 'P' || ch == 'N' || ch == 'B' || ch == 'R' || ch == 'Q' || ch == 'K' then
      promosFromFenRow rest rank Color.white (fileIdx + 1) acc
    else if ch == '~' then
      let sq := Square.make rank (fileIdx - 1)
      promosFromFenRow rest rank lastColor fileIdx
        (fun c => if c = lastColor then insert sq (acc c) else acc c)
    else
      promosFromFenRow rest rank lastColor fileIdx acc

/-- `Promotions::from_fen`: rows zipped with ranks `7, 6, …, 0`. -/
def Promotions.from_fen (fen : List Char) : Promotions :=
  let rows := (splitOnChar '/' fen).zip (List.range 8).reverse
  ⟨rows.foldl (fun acc rc => promosFromFenRow rc.1 rc.2 Color.white 0 acc) (fun _ => ∅)⟩

/-- `BughouseBoard::from_str`.  Each Rust `unwrap` is a `panicked`
outcome: the missing-space `find`, the `rsplit_once`, the
`Holdings::from_str(..).unwrap()` and the `Board::from_str(..).unwrap()`. -/
def bughouseBoardFromStr {Pos : Type} (e : Engine Pos) (s : List Char) :
    Outcome (BughouseBoard Pos) :=
  let count := countChar '/' s
  if count < 7 ∨ 8 < count then .err (.boardParseError s)
  else
    match findChar ' ' s with
    | none => .panicked
    | some i =>
      let bugboardStr := s.take i
      let rest := s.drop i
      match (if count = 8 then rsplitOnceChar '/' bugboardStr else some (bugboardStr, [])) with
      | none => .panicked
      | some (boardPart, holdingsStr) =>
        let boardStr := (boardPart.filter (fun x => x ≠ '~')) ++ rest
        match Holdings.from_str holdingsStr with
        | .error _ => .panicked
        | .ok holdings =>
          match e.boardFromStr boardStr with
          | none => .panicked
          | some board => .ok ⟨board, holdings, Promotions.from_fen boardPart⟩

/-- A concrete position representation used to instantiate the abstract
engine in witnesses and counterexamples: the fields are stored directly. -/
structure ConcretePos where
  pieces : Square → Option Piece
  stm : Color
  checkSqs : BitBoard
  kings : Color → Square
  st : BoardStatus

/-- Squares strictly between two squares of the same file (the only line
geometry the concrete scenarios below need). -/
def fileBetween (x y : Square) : BitBoard :=
  Finset.univ.filter (fun c : Square =>
    x.val % 8 = y.val % 8 ∧ c.val % 8 = x.val % 8 ∧
    min (x.val / 8) (y.val / 8) < c.val / 8 ∧ c.val / 8 < max (x.val / 8) (y.val / 8))

/-- A concrete engine over `ConcretePos`: moves transport the source
piece to the destination, drops place the piece, a move is legal when
its source square is occupied. -/
def concreteEngine : Engine ConcretePos where
  pieceOn p sq := p.pieces sq
  sideToMove p := p.stm
  checkers p := p.checkSqs
  kingSquare p c := p.kings c
  status p := p.st
  legal p mv := (p.pieces mv.source).isSome
  makeMoveNew p mv :=
    { p with
      pieces := fun sq => if sq = mv.dest then p.pieces mv.source
                          else if sq = mv.source then none
                          else p.pieces sq,
      stm := p.stm.other,
      checkSqs := ∅,
      st := BoardStatus.ongoing }
  applyDrop p piece _ sq :=
    some { p with
           pieces := fun s => if s = sq then some piece else p.pieces s,
           stm := p.stm.other }
  boardFromStr _ := none
  between := fileBetween

@[ext] theorem Holdings.ext_cells {x y : Holdings} (hxy : x.holdings = y.holdings) : x = y := by
  cases x; cases y; cases hxy; rfl

@[ext] theorem Promotions.ext_boards {x y : Promotions} (hxy : x.promos = y.promos) : x = y := by
  cases x; cases y; cases hxy; rfl

/-- Claim C8: for every reserve state, color `c` and piece `t ≠ King`,
`Holdings::drop` on a zero count fails with `UnheldDrop` and leaves the
whole mapping unchanged; on a positive count it succeeds and decrements
exactly that one cell by one. -/
theorem c8_drop_zero_fails_positive_decrements (h : Holdings) (c : Color) (t : Piece)
    (_hk : t ≠ Piece.king) :
    (h.holdings c t = 0 → Holdings.drop h c t = (.error (.unheldDrop c t), h))
    ∧ (0 < h.holdings c t →
        (Holdings.drop h c t).fst = .ok ()
        ∧ ∀ c' t', ((Holdings.drop h c t).snd).holdings c' t'
            = if c' = c ∧ t' = t then h.holdings c t - 1 else h.holdings c' t') := by
  refine ⟨fun h0 => ?_, fun hpos => ⟨?_, fun c' t' => ?_⟩⟩
  · simp [Holdings.drop, h0]
  · simp [Holdings.drop, hpos]
  · simp only [Holdings.drop, hpos, if_true]

/-- Witness for C8 at concrete inputs: an empty reserve rejects a knight
drop unchanged, and a two-knight reserve drops down to one. -/
theorem c8_witness :
    Holdings.drop ⟨fun _ _ => 0⟩ Color.white Piece.knight
      = (.error (.unheldDrop Color.white Piece.knight), ⟨fun _ _ => 0⟩)
    ∧ (Holdings.drop ⟨fun c t => if c = Color.white ∧ t = Piece.knight then 2 else 0⟩
        Color.white Piece.knight).fst = .ok ()
    ∧ ((Holdings.drop ⟨fun c t => if c = Color.white ∧ t = Piece.knight then 2 else 0⟩
        Color.white Piece.knight).snd).holdings Color.white Piece.knight = 1 := by
  refine ⟨(c8_drop_zero_fails_positive_decrements ⟨fun _ _ => 0⟩ Color.white Piece.knight
      (by decide)).1 (by decide),
    ((c8_drop_zero_fails_positive_decrements _ Color.white Piece.knight
      (by decide)).2 (by decide)).1, ?_⟩
  have h := ((c8_drop_zero_fails_positive_decrements
      ⟨fun c t => if c = Color.white ∧ t = Piece.knight then 2 else 0⟩
      Color.white Piece.knight (by decide)).2 (by decide)).2 Color.white Piece.knight
  rw [h]
  decide

/-- A reserve holding 255 white pawns, the largest `u8` value. -/
def h255 : Holdings := ⟨fun c t => if c = Color.white ∧ t = Piece.pawn then 255 else 0⟩

/-- Counterexample to claim C9 as stated: at a count of 255 the `u8`
increment of `Holdings::add` wraps to zero, so the following
`Holdings::drop` fails instead of restoring the prior state. -/
theorem c9_counterexample_wrap_at_255 :
    Piece.pawn ≠ Piece.king
    ∧ (Holdings.drop (Holdings.add h255 Color.white Piece.pawn) Color.white Piece.pawn).fst
        = .error (.unheldDrop Color.white Piece.pawn) := by decide

/-- Claim C9 (amended): for every reserve state whose `(c, t)` count is
below 255 and every `t ≠ King`, `add(c, t)` followed by `remove(c, t)`
succeeds and restores the reserve exactly. -/
theorem c9_add_then_drop_restores (h : Holdings) (c : Color) (t : Piece)
    (hk : t ≠ Piece.king) (hlt : h.holdings c t < 255) :
    (Holdings.drop (Holdings.add h c t) c t).fst = .ok ()
    ∧ (Holdings.drop (Holdings.add h c t) c t).snd = h := by
  have hcell : (Holdings.add h c t).holdings c t = h.holdings c t + 1 := by
    simp only [Holdings.add]
    simp only [and_self, if_true]
    exact Nat.mod_eq_of_lt (by omega)
  have hpos : 0 < (Holdings.add h c t).holdings c t := by omega
  refine ⟨by simp [Holdings.drop, hpos], ?_⟩
  ext c' t'
  by_cases hct : c' = c ∧ t' = t
  · obtain ⟨rfl, rfl⟩ := hct
    simp only [Holdings.drop, hpos, if_true]
    simp [hcell]
  · simp only [Holdings.drop, hpos, if_true]
    simp only [hct, if_false]
    simp [Holdings.add, hct]

/-- Witness for C9 (amended) at a concrete input: adding then removing a
black rook from a one-rook reserve gives back the original reserve. -/
theorem c9_witness :
    (Holdings.drop
      (Holdings.add ⟨fun c t => if c = Color.black ∧ t = Piece.rook then 1 else 0⟩
        Color.black Piece.rook) Color.black Piece.rook).fst = .ok ()
    ∧ (Holdings.drop
        (Holdings.add ⟨fun c t => if c = Color.black ∧ t = Piece.rook then 1 else 0⟩
          Color.black Piece.rook) Color.black Piece.rook).snd
        = ⟨fun c t => if c = Color.black ∧ t = Piece.rook then 1 else 0⟩ :=
  c9_add_then_drop_restores ⟨fun c t => if c = Color.black ∧ t = Piece.rook then 1 else 0⟩
    Color.black Piece.rook (by decide) (by decide)

/-- Promotion markers with the single black marker on h8 (square 63). -/
def blackH8Promos : Promotions := ⟨fun c => if c = Color.black then {(63 : Square)} else ∅⟩

/-- Claim C2 fails on the code: when White promotes with g7xh8 capturing
a black promotion-derived piece, the early `return` in the promotion
branch of `Promotions::record_move` skips the trailing
`clear_square(!mover, dest)`, so the black marker on h8 is still set
after the call, where the claim demands it always be cleared. -/
theorem c2_promotion_branch_skips_unmark :
    Promotions.is_promo
      (Promotions.record_move blackH8Promos Color.white
        ⟨(54 : Square), (63 : Square), some Piece.queen⟩)
      Color.black (63 : Square) = true := by decide

/-- Claim C6 fails on the code: `BughouseBoard::from_str` calls
`Holdings::from_str(holdings_str).unwrap()`, so an unrecognized reserve
letter (here `x` in the ninth field) is an uncatchable panic rather than
a returned parse error, whichever engine parses the position text. -/
theorem c6_bad_reserve_letter_panics {Pos : Type} (e : Engine Pos) :
    bughouseBoardFromStr e ("8/8/8/8/8/8/8/8/x w - - 0 1".toList) = .panicked := by
  rfl

theorem BitBoard.toSquare_singleton (a : Square) : BitBoard.toSquare {a} = a := by
  simp [BitBoard.toSquare]

theorem mem_badPawnRanks (sq : Square) :
    sq ∈ badPawnRanks ↔ sq.val / 8 = 7 ∨ sq.val / 8 = 0 := by
  simp [badPawnRanks]

theorem singleton_inter_eq_empty (sq : Square) (s : BitBoard) :
    ({sq} : BitBoard) ∩ s = ∅ ↔ sq ∉ s := by
  simp [Finset.eq_empty_iff_forall_not_mem]

theorem inter_singleton_ne_empty (s : BitBoard) (sq : Square) :
    s ∩ ({sq} : BitBoard) ≠ ∅ ↔ sq ∈ s := by
  rw [Ne, Finset.eq_empty_iff_forall_not_mem]
  simp

/-- Claim C3: when the external engine reports checkmate (so at least one
checker exists and checker squares are occupied), `is_mated` returns
false exactly when there is a single non-knight checker with at least one
square strictly between it and the side-to-move's king; in every other
reported-checkmate case it returns true. -/
theorem c3_is_mated_interposition_iff {Pos : Type} (e : Engine Pos) (b : BughouseBoard Pos)
    (hmate : e.status b.board = BoardStatus.checkmate)
    (hne : (e.checkers b.board).Nonempty)
    (hocc : ∀ sq ∈ e.checkers b.board, (e.pieceOn b.board sq).isSome) :
    BughouseBoard.is_mated e b = false ↔
      ∃ sq pc, e.checkers b.board = {sq} ∧ e.pieceOn b.board sq = some pc
        ∧ pc ≠ Piece.knight
        ∧ (e.between sq (e.kingSquare b.board (e.sideToMove b.board))).Nonempty := by
  rw [show BughouseBoard.is_mated e b
      = (decide (1 < (e.checkers b.board).card)
        || decide (e.pieceOn b.board (BitBoard.toSquare (e.checkers b.board)) = some Piece.knight)
        || decide (e.between (BitBoard.toSquare (e.checkers b.board))
            (e.kingSquare b.board (e.sideToMove b.board)) = ∅)) from by
    simp [BughouseBoard.is_mated, BughouseBoard.king_square, hmate]]
  simp only [Bool.or_eq_false_iff, decide_eq_false_iff_not, not_lt]
  constructor
  · rintro ⟨⟨hcard, hknight⟩, hbet⟩
    have hc1 : (e.checkers b.board).card = 1 :=
      le_antisymm hcard (Finset.card_pos.mpr hne)
    obtain ⟨sq, hsq⟩ := Finset.card_eq_one.mp hc1
    have hts : BitBoard.toSquare (e.checkers b.board) = sq := by
      rw [hsq]; exact BitBoard.toSquare_singleton sq
    have hmem : sq ∈ e.checkers b.board := by
      rw [hsq]; exact Finset.mem_singleton_self sq
    obtain ⟨pc, hpc⟩ := Option.isSome_iff_exists.mp (hocc sq hmem)
    refine ⟨sq, pc, hsq, hpc, ?_, ?_⟩
    · rintro rfl
      rw [hts] at hknight
      exact hknight hpc
    · rw [hts] at hbet
      exact Finset.nonempty_iff_ne_empty.mpr hbet
  · rintro ⟨sq, pc, hsq, hpc, hknight, hbet⟩
    have hts : BitBoard.toSquare (e.checkers b.board) = sq := by
      rw [hsq]; exact BitBoard.toSquare_singleton sq
    refine ⟨⟨?_, ?_⟩, ?_⟩
    · rw [hsq]; simp
    · rw [hts, hpc]
      simpa using hknight
    · rw [hts]
      exact Finset.nonempty_iff_ne_empty.mp hbet

/-- Position for the escapable-mate witness: a rook on a1 checks the
white king on a8; the engine reports checkmate. -/
def escMatePos : ConcretePos :=
  { pieces := fun sq => if sq = (0 : Square) then some Piece.rook else none,
    stm := Color.white,
    checkSqs := {(0 : Square)},
    kings := fun _ => (56 : Square),
    st := BoardStatus.checkmate }

/-- The escapable-mate board: empty reserves, empty markers. -/
def escMateBoard : BughouseBoard ConcretePos :=
  ⟨escMatePos, ⟨fun _ _ => 0⟩, ⟨fun _ => ∅⟩⟩

/-- Witness for C3: on the concrete escapable mate (single rook checker
on a1, king a8, interposition squares a2..a7) `is_mated` is false. -/
theorem c3_witness : BughouseBoard.is_mated concreteEngine escMateBoard = false :=
  (c3_is_mated_interposition_iff concreteEngine escMateBoard rfl (by decide)
      (by decide)).mpr
    ⟨(0 : Square), Piece.rook, rfl, rfl, by decide, by decide⟩

theorem blocks_check_iff {Pos : Type} (e : Engine Pos) (b : BughouseBoard Pos) (dest : Square)
    (hocc : ∀ sq ∈ e.checkers b.board, (e.pieceOn b.board sq).isSome) :
    BughouseBoard.blocks_check e b {dest} = true ↔
      ∃ sq pc, e.checkers b.board = {sq} ∧ e.pieceOn b.board sq = some pc
        ∧ pc ≠ Piece.knight
        ∧ dest ∈ e.between sq (e.kingSquare b.board (e.sideToMove b.board)) := by
  by_cases hcard : (e.checkers b.board).card = 1
  · obtain ⟨sq, hsq⟩ := Finset.card_eq_one.mp hcard
    have hts : BitBoard.toSquare (e.checkers b.board) = sq := by
      rw [hsq]; exact BitBoard.toSquare_singleton sq
    have hmem : sq ∈ e.checkers b.board := by
      rw [hsq]; exact Finset.mem_singleton_self sq
    obtain ⟨pc, hpc⟩ := Option.isSome_iff_exists.mp (hocc sq hmem)
    rw [show BughouseBoard.blocks_check e b {dest}
        = (decide (¬ e.pieceOn b.board (BitBoard.toSquare (e.checkers b.board))
              = some Piece.knight)
          && decide (e.between (BitBoard.toSquare (e.checkers b.board))
              (BughouseBoard.king_square e b) ∩ {dest} ≠ ∅)) from by
      simp [BughouseBoard.blocks_check, hcard]]
    rw [hts]
    simp only [Bool.and_eq_true, decide_eq_true_eq, hpc,
      inter_singleton_ne_empty, BughouseBoard.king_square]
    constructor
    · rintro ⟨hk, hmemb⟩
      exact ⟨sq, pc, hsq, hpc, by simpa using hk, hmemb⟩
    · rintro ⟨sq', pc', hsq', hpc', hk', hmemb'⟩
      have : sq' = sq := by
        rw [hsq] at hsq'
        exact (Finset.singleton_injective hsq').symm
      subst this
      rw [hpc] at hpc'
      cases hpc'
      exact ⟨by simpa using hk', hmemb'⟩
  · rw [show BughouseBoard.blocks_check e b {dest} = false from by
      simp [BughouseBoard.blocks_check, hcard]]
    refine iff_of_false (by simp) ?_
    rintro ⟨sq, pc, hsq, -, -, -⟩
    exact hcard (by rw [hsq]; simp)

/-- Claim C4: for every drop move (no source, a piece), `is_legal` is
true exactly when the side to move holds the piece, the destination is
empty, a pawn is not dropped on the first or eighth rank, and the side to
move is either not in check or the drop lands strictly between a single
non-knight checker and its king. -/
theorem c4_is_legal_drop_iff {Pos : Type} (e : Engine Pos) (b : BughouseBoard Pos)
    (mv : BughouseMove) (p : Piece)
    (hsrc : mv.source = none) (hp : mv.piece = some p)
    (hocc : ∀ sq ∈ e.checkers b.board, (e.pieceOn b.board sq).isSome) :
    BughouseBoard.is_legal e b mv = true ↔
      (Holdings.has_piece b.holdings (e.sideToMove b.board) p = true
       ∧ e.pieceOn b.board mv.dest = none
       ∧ (p = Piece.pawn → mv.dest.val / 8 ≠ 0 ∧ mv.dest.val / 8 ≠ 7)
       ∧ (BughouseBoard.in_check e b = false
          ∨ ∃ sq pc, e.checkers b.board = {sq} ∧ e.pieceOn b.board sq = some pc
              ∧ pc ≠ Piece.knight
              ∧ mv.dest ∈ e.between sq (e.kingSquare b.board (e.sideToMove b.board)))) := by
  obtain ⟨src, dest, piece⟩ := mv
  simp only at hsrc hp
  subst hsrc
  subst hp
  show (Holdings.has_piece b.holdings (e.sideToMove b.board) p
      && decide (e.pieceOn b.board dest = none)
      && (decide (p ≠ Piece.pawn) || decide (({dest} : BitBoard) ∩ badPawnRanks = ∅))
      && (!(BughouseBoard.in_check e b) || BughouseBoard.blocks_check e b {dest})) = true ↔ _
  simp only [Bool.and_eq_true, Bool.or_eq_true, Bool.not_eq_true',
    decide_eq_true_eq, blocks_check_iff e b dest hocc]
  constructor
  · rintro ⟨⟨⟨hhold, hdest⟩, hpawn⟩, hcheck⟩
    refine ⟨hhold, hdest, ?_, hcheck⟩
    rintro rfl
    rcases hpawn with hpp | hempty
    · exact absurd rfl hpp
    · have := (singleton_inter_eq_empty dest badPawnRanks).mp hempty
      rw [mem_badPawnRanks] at this
      omega
  · rintro ⟨hhold, hdest, hpawn, hcheck⟩
    refine ⟨⟨⟨hhold, hdest⟩, ?_⟩, hcheck⟩
    by_cases hpp : p = Piece.pawn
    · right
      rw [singleton_inter_eq_empty, mem_badPawnRanks]
      have := hpawn hpp
      omega
    · left
      exact hpp

theorem BughouseGame.set_get_self {Pos : Type} (g : BughouseGame Pos) (name : BoardID) :
    g.set_board name (g.get_board name) = g := by
  cases g; cases name <;> rfl

theorem make_move_error_id {Pos : Type} (e : Engine Pos) (b : BughouseBoard Pos)
    (mv : BughouseMove) (er : Error) :
    (BughouseBoard.make_move e b mv).fst = .error er →
      (BughouseBoard.make_move e b mv).snd = b := by
  intro herr
  obtain ⟨src, dest, piece⟩ := mv
  unfold BughouseBoard.make_move at herr ⊢
  by_cases hleg : BughouseBoard.is_legal e b ⟨src, dest, piece⟩ = true
  · rw [if_pos hleg] at herr ⊢
    cases src with
    | some s => simp at herr
    | none =>
      cases piece with
      | none => rfl
      | some p =>
        cases hdrop : e.applyDrop b.board p (e.sideToMove b.board) dest with
        | none => simp [hdrop]
        | some newBoard =>
          simp only [hdrop] at herr ⊢
          by_cases hpos : 0 < b.holdings.holdings (e.sideToMove b.board) p
          · simp [Holdings.drop, hpos] at herr
          · simp [Holdings.drop, hpos]
  · rw [if_neg hleg] at herr ⊢

/-- Claim C5: a `BughouseBoard::make_move` that returns an error leaves
the board (position, holdings, promotion markers) exactly as it was, and
a `BughouseGame::make_move` that returns an error leaves both boards of
the game exactly as they were. -/
theorem c5_apply_all_or_nothing {Pos : Type} (e : Engine Pos) (b : BughouseBoard Pos)
    (g : BughouseGame Pos) (name : BoardID) (mv mv2 : BughouseMove) (er er2 : Error) :
    ((BughouseBoard.make_move e b mv).fst = .error er →
        (BughouseBoard.make_move e b mv).snd = b)
    ∧ ((BughouseGame.make_move e g name mv2).fst = .error er2 →
        (BughouseGame.make_move e g name mv2).snd = g) := by
  refine ⟨make_move_error_id e b mv er, fun herr => ?_⟩
  unfold BughouseGame.make_move at herr ⊢
  cases hbm : BughouseBoard.make_move e (g.get_board name) mv2 with
  | mk fst snd =>
    cases fst with
    | error er' =>
      simp only [hbm] at herr ⊢
      have hsnd : snd = g.get_board name := by
        have h2 := make_move_error_id e (g.get_board name) mv2 er'
        rw [hbm] at h2
        exact h2 rfl
      rw [hsnd]
      exact BughouseGame.set_get_self g name
    | ok u =>
      cases hcap : e.pieceOn (g.get_board name).board mv2.dest with
      | none => simp [hbm, hcap] at herr
      | some piece => simp [hbm, hcap] at herr

/-- Board used by the error-path witness: empty position and reserves. -/
def cbEmpty : BughouseBoard ConcretePos :=
  ⟨{ pieces := fun _ => none, stm := Color.white, checkSqs := ∅,
     kings := fun _ => (56 : Square), st := BoardStatus.ongoing },
   ⟨fun _ _ => 0⟩, ⟨fun _ => ∅⟩⟩

/-- Game used by the error-path witness. -/
def cgEmpty : BughouseGame ConcretePos := ⟨cbEmpty, cbEmpty⟩

/-- A knight drop with empty holdings: rejected by `is_legal`. -/
def mvBad : BughouseMove := ⟨none, (28 : Square), some Piece.knight⟩

/-- Witness for C5: the rejected drop returns `IllegalMove` and leaves
the concrete board and game untouched. -/
theorem c5_witness :
    (BughouseBoard.make_move concreteEngine cbEmpty mvBad).fst = .error (.illegalMove mvBad)
    ∧ (BughouseBoard.make_move concreteEngine cbEmpty mvBad).snd = cbEmpty
    ∧ (BughouseGame.make_move concreteEngine cgEmpty .A mvBad).fst = .error (.illegalMove mvBad)
    ∧ (BughouseGame.make_move concreteEngine cgEmpty .A mvBad).snd = cgEmpty := by
  refine ⟨by decide, ?_, by decide, ?_⟩
  · exact (c5_apply_all_or_nothing concreteEngine cbEmpty cgEmpty .A mvBad mvBad
      (.illegalMove mvBad) (.illegalMove mvBad)).1 (by decide)
  · exact (c5_apply_all_or_nothing concreteEngine cbEmpty cgEmpty .A mvBad mvBad
      (.illegalMove mvBad) (.illegalMove mvBad)).2 (by decide)

/-- Claim C10: a successful drop (`source = none`) leaves the board's
promotion tracker identical: only the reserve and the external position
change. -/
theorem c10_drop_preserves_promos {Pos : Type} (e : Engine Pos) (b : BughouseBoard Pos)
    (mv : BughouseMove) (hsrc : mv.source = none)
    (hok : (BughouseBoard.make_move e b mv).fst = .ok ()) :
    (BughouseBoard.make_move e b mv).snd.promos = b.promos := by
  obtain ⟨src, dest, piece⟩ := mv
  simp only at hsrc
  subst hsrc
  unfold BughouseBoard.make_move at hok ⊢
  by_cases hleg : BughouseBoard.is_legal e b ⟨none, dest, piece⟩ = true
  · rw [if_pos hleg] at hok ⊢
    cases piece with
    | none => simp at hok
    | some p =>
      cases hdrop : e.applyDrop b.board p (e.sideToMove b.board) dest with
      | none => simp [hdrop] at hok
      | some newBoard =>
        simp only [hdrop] at hok ⊢
        by_cases hpos : 0 < b.holdings.holdings (e.sideToMove b.board) p
        · simp [Holdings.drop, hpos]
        · simp [Holdings.drop, hpos] at hok
  · rw [if_neg hleg] at hok
    simp at hok

/-- Board used by the drop-frame witness: White holds a knight and has a
marker on c2, the destination e4 is empty. -/
def cbDropReady : BughouseBoard ConcretePos :=
  ⟨{ pieces := fun _ => none, stm := Color.white, checkSqs := ∅,
     kings := fun _ => (56 : Square), st := BoardStatus.ongoing },
   ⟨fun c t => if c = Color.white ∧ t = Piece.knight then 1 else 0⟩,
   ⟨fun c => if c = Color.white then {(10 : Square)} else ∅⟩⟩

/-- Witness for C10: the successful knight drop on the concrete board
keeps its promotion tracker unchanged. -/
theorem c10_witness :
    (BughouseBoard.make_move concreteEngine cbDropReady
      ⟨none, (28 : Square), some Piece.knight⟩).snd.promos = cbDropReady.promos :=
  c10_drop_preserves_promos concreteEngine cbDropReady
    ⟨none, (28 : Square), some Piece.knight⟩ rfl (by decide)

theorem make_move_drop_ok_dest_empty {Pos : Type} (e : Engine Pos) (b : BughouseBoard Pos)
    (dest : Square) (piece : Option Piece)
    (hok : (BughouseBoard.make_move e b ⟨none, dest, piece⟩).fst = .ok ()) :
    e.pieceOn b.board dest = none := by
  unfold BughouseBoard.make_move at hok
  by_cases hleg : BughouseBoard.is_legal e b ⟨none, dest, piece⟩ = true
  · cases piece with
    | none => simp [BughouseBoard.is_legal] at hleg
    | some p =>
      simp only [BughouseBoard.is_legal, Bool.and_eq_true, decide_eq_true_eq] at hleg
      exact hleg.1.1.2
  · rw [if_neg hleg] at hok
    simp at hok

theorem make_move_standard_holdings {Pos : Type} (e : Engine Pos) (b : BughouseBoard Pos)
    (s dest : Square) (pp : Option Piece) :
    ((BughouseBoard.make_move e b ⟨some s, dest, pp⟩).snd).holdings = b.holdings := by
  unfold BughouseBoard.make_move
  by_cases hleg : BughouseBoard.is_legal e b ⟨some s, dest, pp⟩ = true
  · rw [if_pos hleg]
  · rw [if_neg hleg]

theorem BughouseGame.get_set_same {Pos : Type} (g : BughouseGame Pos) (name : BoardID)
    (x : BughouseBoard Pos) : (g.set_board name x).get_board name = x := by
  cases g; cases name <;> rfl

theorem BughouseGame.get_set_other {Pos : Type} (g : BughouseGame Pos) (name : BoardID)
    (x : BughouseBoard Pos) :
    (g.set_board name x).get_board name.other = g.get_board name.other := by
  cases g; cases name <;> rfl

theorem BughouseGame.get_set_other_same {Pos : Type} (g : BughouseGame Pos) (name : BoardID)
    (x : BughouseBoard Pos) :
    (g.set_board name.other x).get_board name = g.get_board name := by
  cases g; cases name <;> rfl

theorem game_capture_holdings {Pos : Type} (e : Engine Pos) (g : BughouseGame Pos)
    (name : BoardID) (mv : BughouseMove) (piece : Piece)
    (hcap : e.pieceOn (g.get_board name).board mv.dest = some piece)
    (hok : (BughouseGame.make_move e g name mv).fst = .ok ()) :
    ((BughouseGame.make_move e g name mv).snd.get_board name).holdings
        = (g.get_board name).holdings
    ∧ ((BughouseGame.make_move e g name mv).snd.get_board name.other).holdings
        = Holdings.add ((g.get_board name.other).holdings)
            ((e.sideToMove (g.get_board name).board).other)
            (if Promotions.is_promo (g.get_board name).promos
                ((e.sideToMove (g.get_board name).board).other) mv.dest = true
             then Piece.pawn else piece) := by
  cases hbm : BughouseBoard.make_move e (g.get_board name) mv with
  | mk fst b' =>
    cases fst with
    | error er =>
      unfold BughouseGame.make_move at hok
      simp [hbm] at hok
    | ok u =>
      have hhold : b'.holdings = (g.get_board name).holdings := by
        obtain ⟨src, dest, piece'⟩ := mv
        cases src with
        | none =>
          have hemp := make_move_drop_ok_dest_empty e (g.get_board name) dest piece'
            (by rw [hbm])
          rw [hemp] at hcap
          cases hcap
        | some s =>
          have hb' : b' = (BughouseBoard.make_move e (g.get_board name)
              ⟨some s, dest, piece'⟩).snd := by rw [hbm]
          rw [hb', make_move_standard_holdings]
      unfold BughouseGame.make_move
      simp only [hbm, hcap]
      rw [BughouseGame.get_set_other_same, BughouseGame.get_set_same,
        BughouseGame.get_set_same, BughouseGame.get_set_other]
      exact ⟨hhold, rfl⟩

/-- Claim C1 (amended): on a successful capturing move, the captured
piece (a pawn when its square carried the opponent's promotion marker) is
added — as a wrapping `u8` increment — to the partner board's reserve
under the color of the side that was NOT to move on the addressed board
(the captured piece's own color, i.e. the capturing player's partner's
color), every other partner reserve entry is unchanged, and the addressed
board's reserve is unchanged. -/
theorem c1_capture_transfer_amended {Pos : Type} (e : Engine Pos) (g : BughouseGame Pos)
    (name : BoardID) (mv : BughouseMove) (piece : Piece)
    (hcap : e.pieceOn (g.get_board name).board mv.dest = some piece)
    (hok : (BughouseGame.make_move e g name mv).fst = .ok ()) :
    ((BughouseGame.make_move e g name mv).snd.get_board name).holdings
        = (g.get_board name).holdings
    ∧ ∀ c t, (((BughouseGame.make_move e g name mv).snd.get_board name.other).holdings).holdings c t
        = if c = (e.sideToMove (g.get_board name).board).other
             ∧ t = (if Promotions.is_promo (g.get_board name).promos
                      ((e.sideToMove (g.get_board name).board).other) mv.dest = true
                    then Piece.pawn else piece)
          then ((((g.get_board name.other).holdings).holdings c t) + 1) % 256
          else (((g.get_board name.other).holdings).holdings c t) := by
  obtain ⟨h1, h2⟩ := game_capture_holdings e g name mv piece hcap hok
  refine ⟨h1, fun c t => ?_⟩
  rw [h2]
  by_cases hct : c = (e.sideToMove (g.get_board name).board).other
      ∧ t = (if Promotions.is_promo (g.get_board name).promos
               ((e.sideToMove (g.get_board name).board).other) mv.dest = true
             then Piece.pawn else piece)
  · obtain ⟨rfl, rfl⟩ := hct
    simp [Holdings.add]
  · simp only [Holdings.add, hct, if_false]

/-- Board-A position for the capture scenarios: a white rook on a1, a
black knight on a8, White to move. -/
def capPosA : ConcretePos :=
  { pieces := fun sq => if sq = (0 : Square) then some Piece.rook
                        else if sq = (56 : Square) then some Piece.knight else none,
    stm := Color.white,
    checkSqs := ∅,
    kings := fun _ => (63 : Square),
    st := BoardStatus.ongoing }

/-- Two-board game for the capture scenarios: board A is `capPosA` with
empty reserves, board B is the empty board. -/
def cgCap : BughouseGame ConcretePos :=
  ⟨⟨capPosA, ⟨fun _ _ => 0⟩, ⟨fun _ => ∅⟩⟩, cbEmpty⟩

/-- The capturing move a1xa8. -/
def cmvCap : BughouseMove := ⟨some (0 : Square), (56 : Square), none⟩

/-- Counterexample to claim C1 as stated: White (the side to move on
board A) captures a non-promoted black knight, the move succeeds, yet
board B's White knight reserve stays 0 — the knight is added under Black
(`!side_to_move`), not under the mover's color as the claim demands. -/
theorem c1_counterexample_capture_color :
    concreteEngine.sideToMove (cgCap.get_board .A).board = Color.white
    ∧ concreteEngine.pieceOn (cgCap.get_board .A).board cmvCap.dest = some Piece.knight
    ∧ (BughouseGame.make_move concreteEngine cgCap .A cmvCap).fst = .ok ()
    ∧ (((BughouseGame.make_move concreteEngine cgCap .A cmvCap).snd.get_board .B).holdings).holdings
        Color.white Piece.knight = 0
    ∧ (((BughouseGame.make_move concreteEngine cgCap .A cmvCap).snd.get_board .B).holdings).holdings
        Color.black Piece.knight = 1 := by decide

/-- Witness for C1 (amended) on the concrete capture: board A's reserve
is unchanged and board B's Black knight count becomes 1. -/
theorem c1_witness :
    ((BughouseGame.make_move concreteEngine cgCap .A cmvCap).snd.get_board .A).holdings
        = (cgCap.get_board .A).holdings
    ∧ (((BughouseGame.make_move concreteEngine cgCap .A cmvCap).snd.get_board .B).holdings).holdings
        Color.black Piece.knight = 1 := by
  refine ⟨(c1_capture_transfer_amended concreteEngine cgCap .A cmvCap Piece.knight
      (by decide) (by decide)).1, ?_⟩
  have h := (c1_capture_transfer_amended concreteEngine cgCap .A cmvCap Piece.knight
      (by decide) (by decide)).2 Color.black Piece.knight
  simp only [BoardID.other] at h
  rw [h]
  decide

/-- Claim C7: when the pre-move promotion marker at the capture square is
set for the captured piece's owner (`!side_to_move`), the piece added to
the partner board's reserve is a pawn, whatever the captured type. -/
theorem c7_promoted_capture_transfers_pawn {Pos : Type} (e : Engine Pos)
    (g : BughouseGame Pos) (name : BoardID) (mv : BughouseMove) (piece : Piece)
    (hcap : e.pieceOn (g.get_board name).board mv.dest = some piece)
    (hpromo : Promotions.is_promo (g.get_board name).promos
        ((e.sideToMove (g.get_board name).board).other) mv.dest = true)
    (hok : (BughouseGame.make_move e g name mv).fst = .ok ()) :
    ((BughouseGame.make_move e g name mv).snd.get_board name.other).holdings
        = Holdings.add ((g.get_board name.other).holdings)
            ((e.sideToMove (g.get_board name).board).other) Piece.pawn := by
  have h := (game_capture_holdings e g name mv piece hcap hok).2
  rw [hpromo] at h
  simpa using h

/-- Board-A position for the promotion-reversion scenario: a white rook
on a1, a black queen on a8, White to move. -/
def capPosQ : ConcretePos :=
  { pieces := fun sq => if sq = (0 : Square) then some Piece.rook
                        else if sq = (56 : Square) then some Piece.queen else none,
    stm := Color.white,
    checkSqs := ∅,
    kings := fun _ => (63 : Square),
    st := BoardStatus.ongoing }

/-- Game for the promotion-reversion scenario: the black queen on a8 is
promotion-derived (Black's marker is set there). -/
def cgCapMarked : BughouseGame ConcretePos :=
  ⟨⟨capPosQ, ⟨fun _ _ => 0⟩, ⟨fun c => if c = Color.black then {(56 : Square)} else ∅⟩⟩,
   cbEmpty⟩

/-- Witness for C7: capturing the marked black queen sends one pawn — and
no queen — to board B's reserve. -/
theorem c7_witness :
    (((BughouseGame.make_move concreteEngine cgCapMarked .A cmvCap).snd.get_board .B).holdings).holdings
        Color.black Piece.pawn = 1
    ∧ (((BughouseGame.make_move concreteEngine cgCapMarked .A cmvCap).snd.get_board .B).holdings).holdings
        Color.black Piece.queen = 0 := by
  have h := c7_promoted_capture_transfers_pawn concreteEngine cgCapMarked .A cmvCap
    Piece.queen (by decide) (by decide) (by decide)
  simp only [BoardID.other] at h
  rw [h]
  decide

/-- Position for the legal-drop witness: white to move, in check from a
single rook on a1 against the white king on a8, square a4 empty. -/
def dropCheckPos : ConcretePos :=
  { pieces := fun sq => if sq = (0 : Square) then some Piece.rook else none,
    stm := Color.white,
    checkSqs := {(0 : Square)},
    kings := fun _ => (56 : Square),
    st := BoardStatus.ongoing }

/-- The legal-drop witness board: White holds one knight. -/
def dropCheckBoard : BughouseBoard ConcretePos :=
  ⟨dropCheckPos, ⟨fun c t => if c = Color.white ∧ t = Piece.knight then 1 else 0⟩, ⟨fun _ => ∅⟩⟩

/-- Witness for C4: dropping the held knight on a4 (between the rook
checker on a1 and the king on a8) is legal on the concrete board. -/
theorem c4_witness :
    BughouseBoard.is_legal concreteEngine dropCheckBoard ⟨none, (24 : Square), some Piece.knight⟩
      = true :=
  (c4_is_legal_drop_iff concreteEngine dropCheckBoard
      ⟨none, (24 : Square), some Piece.knight⟩ Piece.knight rfl rfl (by decide)).mpr
    ⟨by decide, by decide, by decide,
     Or.inr ⟨(0 : Square), Piece.rook, rfl, rfl, by decide, by decide⟩⟩
